import Mathlib

/-!
Verification of the BAMPR-II logging dashboard (`src/app.py`).

The file shallow-embeds the app's pure data transformations —
auto-increment counter handling, the append-with-header-extension log
store, required-field validation, the load-time numeric coercion, and
the plotting tab's binning/aggregation — and proves the specified
properties about them.  Machine integers are modelled as `Nat`/`Int`,
spreadsheet cells as `String`, numeric cells as `ℚ` (with `Option ℚ`
standing for a possibly-missing/NaN value).
-/

namespace Bampr

/-! ### Decimal digits: Python `str(n)` and `int(s)` on digit strings -/

/-- Fuel-indexed core of the decimal rendering of a natural number
    (digits accumulate most-significant first). -/
def natToDigitsCore : Nat → Nat → List Char → List Char
  | 0, _, acc => acc
  | fuel + 1, n, acc =>
    if n < 10 then Nat.digitChar n :: acc
    else natToDigitsCore fuel (n / 10) (Nat.digitChar (n % 10) :: acc)

/-- Decimal digit characters of a natural number, most significant first;
    embeds Python `str(n)` for non-negative `n`. -/
def natToDigits (n : Nat) : List Char :=
  natToDigitsCore (n + 1) n []

/-- Numeric value of a digit character. -/
def digitVal (c : Char) : Nat := c.toNat - 48

/-- Value of a digit-only string; embeds Python `int(s)` on strings of
    decimal digits. -/
def parseDigits (cs : List Char) : Nat :=
  cs.foldl (fun a c => 10 * a + digitVal c) 0

/-! ### Python string helpers used by the counter code -/

/-- Python `s.zfill(pad)` for a non-negative numeral: left-pad with `'0'`
    to width `pad`. -/
def zfill (cs : List Char) (pad : Nat) : List Char :=
  List.replicate (pad - cs.length) '0' ++ cs

/-- Fuel-indexed core of Python `s.replace(pat, "")` for non-empty `pat`:
    delete every non-overlapping occurrence of `pat`, scanning left to
    right.  `fuel = s.length` always suffices. -/
def pyReplaceCore : Nat → List Char → List Char → List Char
  | 0, s, _ => s
  | fuel + 1, s, pat =>
    match s with
    | [] => []
    | c :: rest =>
      if pat ≠ [] ∧ pat.isPrefixOf (c :: rest) then
        pyReplaceCore fuel ((c :: rest).drop pat.length) pat
      else c :: pyReplaceCore fuel rest pat

/-- Python `s.replace(pat, "")` on character lists (non-empty `pat`). -/
def pyReplace (s pat : List Char) : List Char :=
  pyReplaceCore s.length s pat

/-- Python `str.strip()`: drop leading and trailing whitespace. -/
def pyStrip (cs : List Char) : List Char :=
  ((cs.dropWhile Char.isWhitespace).reverse.dropWhile Char.isWhitespace).reverse

/-- Python's strict lexicographic order on strings (code-point order),
    the order `sorted` and pandas use for string values. -/
def strLt : List Char → List Char → Bool
  | [], [] => false
  | [], _ :: _ => true
  | _ :: _, [] => false
  | a :: as, b :: bs =>
    if a < b then true else if b < a then false else strLt as bs

/-! ### Auto-increment counter helpers (`src/app.py` lines 76–115) -/

/-- The auto-increment parameters of a variable: config keys `format`,
    `pad`, `prefix`, `start`, with the defaults the code supplies via
    `var.get`. -/
structure AutoVar where
  fmt : String := "padded"
  pad : Nat := 4
  pfx : String := ""
  start : Int := 1
deriving Repr, DecidableEq

/-- Function `format_counter` from `src/app.py`: zero-pad the counter to `pad`
    digits and, when the format is `"prefixed"`, prepend the prefix. -/
def format_counter (n : Nat) (var : AutoVar) : String :=
  if var.fmt = "prefixed" then String.mk (var.pfx.data ++ zfill (natToDigits n) var.pad)
  else String.mk (zfill (natToDigits n) var.pad)

/-- Function `extract_counter` from `src/app.py`: when the format is `"prefixed"`
    and the prefix is non-empty, strip the prefix with Python
    `str.replace`; then delete all non-digit characters
    (`re.sub("[^0-9]", "", stripped)`) and parse the rest with `int`.
    `int("")` raises `ValueError`, which the code turns into `None`. -/
def extract_counter (value : String) (var : AutoVar) : Option Nat :=
  let stripped :=
    if var.fmt = "prefixed" ∧ var.pfx ≠ "" then pyReplace value.data var.pfx.data
    else value.data
  let ds := stripped.filter Char.isDigit
  if ds = [] then none else some (parseDigits ds)

/-- The historical values of column `col_idx` that `get_last_counter`
    scans and successfully parses: a cell contributes when the row is
    long enough, the cell is non-empty (Python truthiness), and
    `extract_counter` returns a number. -/
def scannedCounters (rows : List (List String)) (col_idx : Nat) (var : AutoVar) : List Nat :=
  rows.filterMap fun row =>
    if col_idx < row.length ∧ row.getD col_idx "" ≠ "" then
      extract_counter (row.getD col_idx "") var
    else none

/-- Function `get_last_counter` from `src/app.py`, over an in-memory copy of the
    sheet (`all_values` = header row followed by data rows): the maximum
    parsed historical value, or `start - 1` when the sheet has no data
    rows, the column is absent, or no value parses. -/
def get_last_counter (all_values : List (List String)) (col_name : String)
    (var : AutoVar) : Int :=
  match all_values with
  | [] => var.start - 1
  | headers :: rows =>
    if rows = [] then var.start - 1
    else
      match headers.indexOf? col_name with
      | none => var.start - 1
      | some col_idx =>
        match (scannedCounters rows col_idx var).max? with
        | some m => (m : Int)
        | none => var.start - 1

/-- Every caller of `get_last_counter` in `src/app.py` (session init,
    resync, reset) uses `last + 1` as the next counter. -/
def nextCounter (all_values : List (List String)) (col_name : String)
    (var : AutoVar) : Int :=
  get_last_counter all_values col_name var + 1

/-! ### Log store: `append_log` (`src/app.py` lines 60–72) -/

/-- The columns of the submitted row not yet present in the header row
    (`new_headers` in `append_log`), in the row's key order. -/
def newColumns (row : List (String × String)) (headers : List String) : List String :=
  (row.map Prod.fst).filter fun k => !headers.contains k

/-- Function `append_log` from `src/app.py`, over an in-memory copy of the sheet
    (list of rows, first row = headers).  The submitted row is an
    ordered association list (a Python dict preserves insertion order).
    On an empty sheet the keys are written as the header row and the
    values appended as-is; otherwise the header row is extended in place
    with the row's unseen columns (`ws.update("1:1", ...)`), the header
    re-read, and the row's values appended aligned to the extended
    header with `row.get(k, "")` defaulting missing columns to `""`. -/
def append_log (row : List (String × String)) (store : List (List String)) :
    List (List String) :=
  match store with
  | [] => [row.map Prod.fst, row.map Prod.snd]
  | headers :: rest =>
    let headers' := headers ++ newColumns row headers
    (headers' :: rest) ++ [headers'.map fun k => (row.lookup k).getD ""]

/-! ### Form schema, validation and counter advance
    (`src/app.py` lines 222–225, 315–329, 341–349) -/

/-- A variable as read from the config: name, `type` (code default
    `"text"`), `required` flag, auto-increment `start`. -/
structure VarSpec where
  name : String
  vtype : String := "text"
  required : Bool := false
  start : Int := 1
deriving Repr, DecidableEq

/-- A group as read from the config. -/
structure GroupSpec where
  name : String
  always_on : Bool := false
  vars : List VarSpec := []
deriving Repr, DecidableEq

/-- The groups participating in submission (`src/app.py` lines 222–225):
    `always_on` groups plus those toggled active in the sidebar. -/
def activeGroups (groups : List GroupSpec) (active : String → Bool) : List GroupSpec :=
  groups.filter fun g => g.always_on || active g.name

/-- The validation scan of the Log Run handler (`src/app.py` lines
    316–322): the names of required variables of active groups whose
    session value is empty after stripping whitespace
    (`not str(val).strip()`), in scan order. -/
def missingFields (groups : List GroupSpec) (active : String → Bool)
    (values : String → String → String) : List String :=
  (activeGroups groups active).flatMap fun g =>
    (g.vars.filter fun v => v.required && (pyStrip (values g.name v.name).data == [])).map
      fun v => v.name

/-- The itemized validation error (`src/app.py` lines 324–328). -/
def validationError (missing : List String) : String :=
  "Please fill in required fields: " ++ String.intercalate ", " missing

/-- The row submitted on success (`src/app.py` lines 331–335): the
    Timestamp column followed by one `"Group — Variable"` column per
    variable of each active group. -/
def buildRow (groups : List GroupSpec) (active : String → Bool)
    (values : String → String → String) (timestamp : String) : List (String × String) :=
  ("Timestamp", timestamp) :: (activeGroups groups active).flatMap fun g =>
    g.vars.map fun v => (g.name ++ " — " ++ v.name, values g.name v.name)

/-- The log store after the Log Run handler: unchanged when validation
    fails, else the built row is appended (`src/app.py` lines 324–339). -/
def log_pressed_store (groups : List GroupSpec) (active : String → Bool)
    (values : String → String → String) (timestamp : String)
    (store : List (List String)) : List (List String) :=
  if missingFields groups active values ≠ [] then store
  else append_log (buildRow groups active values timestamp) store

/-- The error message surfaced by the Log Run handler, `none` when
    validation passes (the success path posts a success banner instead,
    which carries no field names). -/
def log_pressed_message (groups : List GroupSpec) (active : String → Bool)
    (values : String → String → String) : Option String :=
  if missingFields groups active values ≠ [] then
    some (validationError (missingFields groups active values))
  else none

/-- Pointwise update of the two-level keyed session map. -/
def updateKey (f : String → String → Option Int) (gn vn : String) (x : Option Int) :
    String → String → Option Int :=
  fun a b => if a = gn ∧ b = vn then x else f a b

/-- One iteration of the counter-advance loop (`src/app.py` lines
    342–349): an auto-increment variable's session counter becomes
    `st.session_state.get(counter_key, start) + 1`. -/
def advanceVar (gname : String) (cs : String → String → Option Int) (v : VarSpec) :
    String → String → Option Int :=
  if v.vtype = "auto_increment" then
    updateKey cs gname v.name (some ((cs gname v.name).getD v.start + 1))
  else cs

/-- The inner loop over one active group's variables. -/
def advanceGroup (cs : String → String → Option Int) (g : GroupSpec) :
    String → String → Option Int :=
  g.vars.foldl (advanceVar g.name) cs

/-- The counter-advance loop run on the success path (`src/app.py`
    lines 341–349), over every variable of every active group. -/
def advanceCounters (groups : List GroupSpec) (active : String → Bool)
    (counters : String → String → Option Int) : String → String → Option Int :=
  (activeGroups groups active).foldl advanceGroup counters

/-- The session counters after the Log Run handler: advanced only on the
    success path (validation passed). -/
def log_pressed_counters (groups : List GroupSpec) (active : String → Bool)
    (values : String → String → String)
    (counters : String → String → Option Int) : String → String → Option Int :=
  if missingFields groups active values ≠ [] then counters
  else advanceCounters groups active counters

/-! ### Plot-tab aggregation (`src/app.py` lines 529–560) -/

/-- Mean aggregate of a numeric colour column (pandas `"mean"`). -/
def colourMean (vals : List ℚ) : ℚ := vals.sum / vals.length

/-- The highest frequency attained by any value of `vals`. -/
def maxFreq (vals : List String) : Nat :=
  ((vals.map fun v => vals.count v).max?).getD 0

/-- The distinct values of `vals` attaining the highest frequency. -/
def modes (vals : List String) : List String :=
  vals.dedup.filter fun v => vals.count v = maxFreq vals

/-- The least element of `m :: ms` in Python string order. -/
def minMode (m : String) (ms : List String) : String :=
  ms.foldl (fun acc v => if strLt v.data acc.data then v else acc) m

/-- The categorical colour aggregate (`src/app.py` line 540):
    `lambda x: x.mode().iloc[0] if len(x) > 0 else ""`.  pandas
    `Series.mode` returns the most frequent values in sorted order, so
    `.iloc[0]` is the least most-frequent value in string order. -/
def pandasModeFirst (vals : List String) : String :=
  if vals = [] then ""
  else
    match modes vals with
    | [] => ""
    | m :: ms => minMode m ms

/-- A record of the filtered plot table: the chosen X and Y cells after
    numeric coercion, `none` standing for a missing value (NaN). -/
structure PlotRec where
  x : Option ℚ
  y : Option ℚ
deriving Repr, DecidableEq

/-- Rounding to `d` decimal places (pandas `Series.round(d)` on the two
    axis columns): the nearest multiple of `10 ^ (-d)`. -/
def roundTo (d : Nat) (q : ℚ) : ℚ := (round (q * 10 ^ d) : ℤ) / 10 ^ d

/-- The grouping key `(_x_bin, _y_bin)` of a record (`src/app.py` lines
    530–531 and 549); `none` when either coordinate is NaN, in which
    case pandas `groupby` drops the record. -/
def binKey (dx dy : Nat) (r : PlotRec) : Option (ℚ × ℚ) :=
  match r.x, r.y with
  | some a, some b => some (roundTo dx a, roundTo dy b)
  | _, _ => none

/-- The bin keys of the records that participate in the grouping. -/
def binKeys (dx dy : Nat) (recs : List PlotRec) : List (ℚ × ℚ) :=
  recs.filterMap (binKey dx dy)

/-- The distinct bins produced by the `groupby`. -/
def bins (dx dy : Nat) (recs : List PlotRec) : List (ℚ × ℚ) :=
  (binKeys dx dy recs).dedup

/-- The `_count` aggregate of a bin: `(x_col, "count")` counts the
    non-NaN X cells of the bin's members, and every member of a bin has
    a non-NaN X cell (else it would have no key), so this is the number
    of records in the bin. -/
def binCount (dx dy : Nat) (recs : List PlotRec) (k : ℚ × ℚ) : Nat :=
  (binKeys dx dy recs).count k

/-- The bubble-size normalisation (`src/app.py` lines 556–560): when the
    observed counts vary, rescale linearly into the pixel range from the
    fixed lower bound 8 to the slider value `size_scale`; when they are
    all equal, every bin gets `size_scale * 0.5`. -/
def bubbleSize (counts : List ℚ) (size_scale : ℚ) (c : ℚ) : ℚ :=
  let mn := (counts.min?).getD 0
  let mx := (counts.max?).getD 0
  if mn < mx then 8 + (size_scale - 8) * (c - mn) / (mx - mn)
  else size_scale * (1 / 2)

/-! ### Loading the log (`src/app.py` lines 44–58) -/

/-- Model of `pd.to_numeric(cell, errors="coerce")` on the characters of
    one cell, unsigned part: a decimal integer or decimal fraction
    parses; anything else (including the empty string) is NaN. -/
def toNumericUnsigned (cs : List Char) : Option ℚ :=
  let ip := cs.takeWhile Char.isDigit
  let rest := cs.dropWhile Char.isDigit
  if ip = [] then none
  else
    match rest with
    | [] => some (parseDigits ip)
    | '.' :: fp =>
      if fp ≠ [] ∧ fp.all Char.isDigit then
        some ((parseDigits ip : ℚ) + (parseDigits fp : ℚ) / 10 ^ fp.length)
      else none
    | _ => none

/-- Model of `pd.to_numeric(cell, errors="coerce")` on one cell, with an
    optional leading minus sign. -/
def toNumericQ (s : String) : Option ℚ :=
  match s.data with
  | '-' :: cs => (toNumericUnsigned cs).map Neg.neg
  | cs => toNumericUnsigned cs

/-- The load-time per-column coercion (`src/app.py` lines 51–54): when at
    least one cell of the column parses (`converted.notna().sum() > 0`)
    the whole column is replaced by the coerced values, with `none`
    (NaN) at every non-parsing cell; otherwise the column is left as
    strings. -/
def coerceColumn (cells : List String) : List (Option ℚ) ⊕ List String :=
  let converted := cells.map toNumericQ
  if 0 < converted.countP Option.isSome then Sum.inl converted
  else Sum.inr cells

/-- The number of cells of a loaded column. -/
def colLength : List (Option ℚ) ⊕ List String → Nat :=
  Sum.elim List.length List.length

/-- The table built from the fetched records: one coerced column per
    header (`get_all_records` keys cells by the header row). -/
def loadTable (headers : List String) (rows : List (List String)) :
    List (String × (List (Option ℚ) ⊕ List String)) :=
  headers.enum.map fun p => (p.2, coerceColumn (rows.map fun row => row.getD p.1 ""))

/-- Function `load_log` from `src/app.py`: a failed connection (`none`) yields an
    empty table and a `st.warning` (the Boolean); a successful fetch
    yields the table of all records, with no warning, the empty table
    when the sheet holds no records. -/
def load_log (conn : Option (List String × List (List String))) :
    List (String × (List (Option ℚ) ⊕ List String)) × Bool :=
  match conn with
  | none => ([], true)
  | some (headers, rows) =>
    if rows = [] then ([], false)
    else (loadTable headers rows, false)

/-! ## Helper lemmas -/

theorem digitChar_isDigit {d : Nat} (h : d < 10) : (Nat.digitChar d).isDigit = true := by
  interval_cases d <;> decide

theorem digitVal_digitChar {d : Nat} (h : d < 10) : digitVal (Nat.digitChar d) = d := by
  interval_cases d <;> decide

theorem natToDigitsCore_spec :
    ∀ (fuel n : Nat) (acc : List Char), n < fuel →
      ∃ ds, natToDigitsCore fuel n acc = ds ++ acc ∧ ds ≠ [] ∧
        (∀ c ∈ ds, c.isDigit = true) ∧
        ∀ a, ds.foldl (fun b c => 10 * b + digitVal c) a = a * 10 ^ ds.length + n := by
  intro fuel
  induction fuel with
  | zero => intro n acc h; omega
  | succ fuel ih =>
    intro n acc h
    by_cases h10 : n < 10
    · refine ⟨[Nat.digitChar n], by simp [natToDigitsCore, h10], by simp, ?_, ?_⟩
      · intro c hc
        rw [List.mem_singleton] at hc
        subst hc
        exact digitChar_isDigit h10
      · intro a
        simp [digitVal_digitChar h10]
        ring
    · have hdiv : n / 10 < fuel := by
        have := Nat.div_lt_self (show 0 < n by omega) (show 1 < 10 by omega)
        omega
      obtain ⟨ds, hds, hne, hdig, hfold⟩ := ih (n / 10) (Nat.digitChar (n % 10) :: acc) hdiv
      refine ⟨ds ++ [Nat.digitChar (n % 10)], ?_, by simp, ?_, ?_⟩
      · rw [natToDigitsCore]
        simp only [if_neg h10]
        rw [hds, List.append_assoc, List.singleton_append]
      · intro c hc
        rcases List.mem_append.1 hc with h' | h'
        · exact hdig c h'
        · rw [List.mem_singleton] at h'
          subst h'
          exact digitChar_isDigit (Nat.mod_lt _ (by omega))
      · intro a
        rw [List.foldl_append, hfold a]
        have hmod : 10 * (n / 10) + n % 10 = n := by omega
        have hd : digitVal (Nat.digitChar (n % 10)) = n % 10 :=
          digitVal_digitChar (Nat.mod_lt _ (by omega))
        simp only [List.foldl_cons, List.foldl_nil, hd, List.length_append,
          List.length_singleton]
        calc 10 * (a * 10 ^ ds.length + n / 10) + n % 10
            = a * (10 ^ ds.length * 10) + (10 * (n / 10) + n % 10) := by ring
          _ = a * 10 ^ (ds.length + 1) + n := by rw [hmod, pow_succ]

theorem natToDigits_spec (n : Nat) :
    natToDigits n ≠ [] ∧ (∀ c ∈ natToDigits n, c.isDigit = true) ∧
      parseDigits (natToDigits n) = n := by
  obtain ⟨ds, hds, hne, hdig, hfold⟩ := natToDigitsCore_spec (n + 1) n [] (by omega)
  rw [natToDigits, hds, List.append_nil]
  refine ⟨hne, hdig, ?_⟩
  rw [parseDigits, hfold 0, Nat.zero_mul, Nat.zero_add]

theorem parseDigits_replicate_zero (k : Nat) (ds : List Char) :
    parseDigits (List.replicate k '0' ++ ds) = parseDigits ds := by
  induction k with
  | zero => rfl
  | succ k ih =>
    have h0 : (10 * 0 + digitVal '0') = 0 := by decide
    rw [parseDigits] at ih ⊢
    rw [List.replicate_succ, List.cons_append, List.foldl_cons, h0]
    exact ih

theorem zfill_digits {cs : List Char} (pad : Nat) (h : ∀ c ∈ cs, c.isDigit = true) :
    ∀ c ∈ zfill cs pad, c.isDigit = true := by
  intro c hc
  rcases List.mem_append.1 hc with h' | h'
  · rw [List.eq_of_mem_replicate h']; decide
  · exact h c h'

theorem parseDigits_zfill (cs : List Char) (pad : Nat) :
    parseDigits (zfill cs pad) = parseDigits cs :=
  parseDigits_replicate_zero _ _

theorem pyReplaceCore_filter (p : Char → Bool) :
    ∀ (fuel : Nat) (s pat : List Char), s.length ≤ fuel →
      (∀ c ∈ pat, p c = false) →
      (pyReplaceCore fuel s pat).filter p = s.filter p := by
  intro fuel
  induction fuel with
  | zero => intro s pat _ _; rfl
  | succ fuel ih =>
    intro s pat hs hp
    match s with
    | [] => rfl
    | c :: rest =>
      rw [pyReplaceCore]
      by_cases hc : pat ≠ [] ∧ pat.isPrefixOf (c :: rest)
      · rw [if_pos hc]
        have hpat : pat ≠ [] := hc.1
        have hpre : pat <+: (c :: rest) := List.isPrefixOf_iff_prefix.1 hc.2
        obtain ⟨t, ht⟩ := hpre
        have hdrop : (c :: rest).drop pat.length = t := by
          rw [← ht, List.drop_left]
        have hlen : ((c :: rest).drop pat.length).length ≤ fuel := by
          rw [List.length_drop]
          have : 1 ≤ pat.length := List.length_pos.2 hpat
          simp only [List.length_cons] at hs ⊢
          omega
        rw [ih _ pat hlen hp, hdrop, ← ht, List.filter_append]
        have : pat.filter p = [] := List.filter_eq_nil_iff.2 (by
          intro a ha
          simp [hp a ha])
        rw [this, List.nil_append]
      · rw [if_neg hc]
        have hlen : rest.length ≤ fuel := by
          simp only [List.length_cons] at hs; omega
        rw [List.filter_cons, List.filter_cons]
        cases hpc : p c
        · simp only [ih rest pat hlen hp]
        · simp only [ih rest pat hlen hp]

theorem pyReplace_filter (p : Char → Bool) (s pat : List Char)
    (hp : ∀ c ∈ pat, p c = false) :
    (pyReplace s pat).filter p = s.filter p :=
  pyReplaceCore_filter p s.length s pat le_rfl hp

/-! ## C9: round-trip of counter formatting -/

/-- C9: for every non-negative integer `n` and every auto-increment spec
    whose prefix contains no digit characters, extracting a counter from
    the formatted rendering returns `n`, for both the `"padded"` and the
    `"prefixed"` format. -/
theorem counter_roundtrip (n : Nat) (var : AutoVar)
    (hfmt : var.fmt = "padded" ∨ var.fmt = "prefixed")
    (hpfx : ∀ c ∈ var.pfx.data, c.isDigit = false) :
    extract_counter (format_counter n var) var = some n := by
  obtain ⟨hne, hdig, hparse⟩ := natToDigits_spec n
  have hzdig : ∀ c ∈ zfill (natToDigits n) var.pad, c.isDigit = true :=
    zfill_digits _ hdig
  have hzne : zfill (natToDigits n) var.pad ≠ [] := by
    rw [zfill]
    intro hemp
    exact hne (List.append_eq_nil.1 hemp).2
  have hzfilter : (zfill (natToDigits n) var.pad).filter Char.isDigit
      = zfill (natToDigits n) var.pad := List.filter_eq_self.2 hzdig
  have hzparse : parseDigits (zfill (natToDigits n) var.pad) = n := by
    rw [parseDigits_zfill, hparse]
  by_cases hp : var.fmt = "prefixed"
  · by_cases hpe : var.pfx = ""
    · rw [extract_counter, format_counter, if_pos hp]
      simp only [hp, hpe, ne_eq, not_true_eq_false, and_false, if_false]
      show (if ((("" : String).data ++ zfill (natToDigits n) var.pad).filter Char.isDigit)
          = [] then none else some (parseDigits ((("" : String).data
            ++ zfill (natToDigits n) var.pad).filter Char.isDigit))) = some n
      rw [show ("" : String).data = [] from rfl, List.nil_append, hzfilter,
        if_neg hzne, hzparse]
    · rw [extract_counter, format_counter, if_pos hp]
      simp only [hp, hpe, ne_eq, not_false_eq_true, and_self, if_true]
      show (if ((pyReplace (var.pfx.data ++ zfill (natToDigits n) var.pad)
            var.pfx.data).filter Char.isDigit) = [] then none
          else some (parseDigits ((pyReplace (var.pfx.data
            ++ zfill (natToDigits n) var.pad) var.pfx.data).filter Char.isDigit)))
          = some n
      rw [pyReplace_filter Char.isDigit _ _ hpfx, List.filter_append,
        List.filter_eq_nil_iff.2 (by intro a ha; simp [hpfx a ha]), List.nil_append,
        hzfilter, if_neg hzne, hzparse]
  · rw [extract_counter, format_counter, if_neg hp]
    simp only [hp, false_and, if_false]
    show (if ((zfill (natToDigits n) var.pad).filter Char.isDigit) = [] then none
        else some (parseDigits ((zfill (natToDigits n) var.pad).filter Char.isDigit)))
        = some n
    rw [hzfilter, if_neg hzne, hzparse]

/-- Witness for C9 at `n = 7`, prefix `"RUN-"`, prefixed format. -/
theorem counter_roundtrip_witness :
    (∀ c ∈ ("RUN-" : String).data, c.isDigit = false)
    ∧ extract_counter (format_counter 7 (AutoVar.mk "prefixed" 4 "RUN-" 1))
        (AutoVar.mk "prefixed" 4 "RUN-" 1) = some 7 :=
  ⟨by decide, counter_roundtrip 7 (AutoVar.mk "prefixed" 4 "RUN-" 1) (Or.inr rfl) (by decide)⟩

/-! ## C1: counter synchronization -/

/-- C1: scanning the historical values of the target column extracts the
    numeric suffix of each value, skipping values that do not parse; the
    next counter is the maximum extracted value plus one, or `start`
    when no value parses; in particular for values
    `["RUN-0007", "RUN-0012", "bad"]` with prefix `"RUN-"`, pad 4 and
    format `"prefixed"` the next counter is 13, rendered `"RUN-0013"`. -/
theorem counter_sync (headers : List String) (rows : List (List String))
    (col_name : String) (var : AutoVar) (col_idx : Nat)
    (hrows : rows ≠ []) (hidx : headers.indexOf? col_name = some col_idx) :
    (∀ m, m ∈ scannedCounters rows col_idx var →
        (∀ x ∈ scannedCounters rows col_idx var, x ≤ m) →
        nextCounter (headers :: rows) col_name var = (m : Int) + 1)
    ∧ (scannedCounters rows col_idx var = [] →
        nextCounter (headers :: rows) col_name var = var.start)
    ∧ nextCounter [["Run ID"], ["RUN-0007"], ["RUN-0012"], ["bad"]] "Run ID"
        (AutoVar.mk "prefixed" 4 "RUN-" 1) = 13
    ∧ format_counter 13 (AutoVar.mk "prefixed" 4 "RUN-" 1) = "RUN-0013" := by
  refine ⟨?_, ?_, by decide, by decide⟩
  · intro m hm hub
    have hmax : (scannedCounters rows col_idx var).max? = some m := by
      have : Std.Antisymm (α := Nat) (· ≤ ·) := ⟨fun h1 h2 => Nat.le_antisymm h1 h2⟩
      rw [List.max?_eq_some_iff]
      · exact ⟨hm, hub⟩
      all_goals simp [Nat.le_total, Nat.max_le]
    rw [nextCounter, get_last_counter]
    simp only [if_neg hrows, hidx, hmax]
  · intro hnil
    rw [nextCounter, get_last_counter]
    simp only [if_neg hrows, hidx, hnil, List.max?_nil]
    omega

/-- Witness for C1: the maximum of the scanned values of the example
    sheet is 12 and the next counter is 12 + 1. -/
theorem counter_sync_witness :
    nextCounter [["Run ID"], ["RUN-0007"], ["RUN-0012"], ["bad"]] "Run ID"
      (AutoVar.mk "prefixed" 4 "RUN-" 1) = (12 : Nat) + 1 :=
  (counter_sync ["Run ID"] [["RUN-0007"], ["RUN-0012"], ["bad"]] "Run ID"
      (AutoVar.mk "prefixed" 4 "RUN-" 1) 0 (by decide) (by decide)).1 12
    (by decide) (by decide)

/-! ## C2: append with header extension -/

/-- C2: appending a row to a non-empty store keeps the old headers in
    place and order, extends them with exactly the row's columns not
    previously present, appends the row's cells aligned positionally to
    the extended header with `""` in every column the row does not
    define, and leaves the existing data rows untouched; in particular a
    row with new column `"B"` extends the header `["Timestamp", "A"]`
    to `["Timestamp", "A", "B"]` without retroactively filling the
    earlier row. -/
theorem append_log_spec (row : List (String × String)) (headers : List String)
    (rest : List (List String)) :
    (append_log row (headers :: rest)
      = (headers ++ newColumns row headers)
        :: (rest ++ [(headers ++ newColumns row headers).map
              fun k => (row.lookup k).getD ""]))
    ∧ (∀ k ∈ newColumns row headers, k ∈ row.map Prod.fst ∧ k ∉ headers)
    ∧ (∀ k ∈ row.map Prod.fst, k ∉ headers → k ∈ newColumns row headers)
    ∧ append_log [("Timestamp", "t"), ("A", "1"), ("B", "2")]
        [["Timestamp", "A"], ["t0", "x"]]
      = [["Timestamp", "A", "B"], ["t0", "x"], ["t", "1", "2"]] := by
  refine ⟨rfl, ?_, ?_, by decide⟩
  · intro k hk
    rw [newColumns, List.mem_filter] at hk
    refine ⟨hk.1, ?_⟩
    simpa using hk.2
  · intro k hk hnot
    rw [newColumns, List.mem_filter]
    exact ⟨hk, by simpa using hnot⟩

/-- Witness for C2: `"B"` is not among the old headers and is collected
    as a new column. -/
theorem append_log_spec_witness :
    "B" ∈ newColumns [("Timestamp", "t"), ("A", "1"), ("B", "2")] ["Timestamp", "A"] :=
  (append_log_spec [("Timestamp", "t"), ("A", "1"), ("B", "2")] ["Timestamp", "A"]
      [["t0", "x"]]).2.2.1 "B" (by decide) (by decide)

/-! ## C3: validation collects all violations and blocks the append -/

/-- C3: every required variable of an active group whose stripped value
    is empty is collected (the scan is not fail-fast), only such
    violations are collected, and when at least one exists the handler
    posts exactly the one itemized message naming all collected fields
    and leaves the store unchanged. -/
theorem validation_spec (groups : List GroupSpec) (active : String → Bool)
    (values : String → String → String) (timestamp : String)
    (store : List (List String)) :
    (∀ g ∈ activeGroups groups active, ∀ v ∈ g.vars,
        v.required = true → pyStrip (values g.name v.name).data = [] →
        v.name ∈ missingFields groups active values)
    ∧ (∀ name ∈ missingFields groups active values,
        ∃ g ∈ activeGroups groups active, ∃ v ∈ g.vars,
          v.name = name ∧ v.required = true ∧ pyStrip (values g.name v.name).data = [])
    ∧ (missingFields groups active values ≠ [] →
        log_pressed_store groups active values timestamp store = store
        ∧ log_pressed_message groups active values
          = some (validationError (missingFields groups active values))) := by
  refine ⟨?_, ?_, ?_⟩
  · intro g hg v hv hreq hval
    rw [missingFields, List.mem_flatMap]
    refine ⟨g, hg, ?_⟩
    rw [List.mem_map]
    exact ⟨v, List.mem_filter.2 ⟨hv, by simp [hreq, hval]⟩, rfl⟩
  · intro name hname
    rw [missingFields, List.mem_flatMap] at hname
    obtain ⟨g, hg, hmem⟩ := hname
    rw [List.mem_map] at hmem
    obtain ⟨v, hv, hvn⟩ := hmem
    rw [List.mem_filter] at hv
    have hflags := hv.2
    simp only [Bool.and_eq_true, beq_iff_eq] at hflags
    exact ⟨g, hg, v, hv.1, hvn, hflags.1, hflags.2⟩
  · intro hne
    rw [log_pressed_store, if_pos hne, log_pressed_message, if_pos hne]
    exact ⟨rfl, rfl⟩

/-- Witness for C3 at a group with required fields `"A"` (blank) and
    `"B"` (filled): validation fails, the store is unchanged, the single
    message lists the collected fields. -/
theorem validation_spec_witness :
    missingFields [GroupSpec.mk "G" true [VarSpec.mk "A" "text" true 1,
        VarSpec.mk "B" "text" true 1]] (fun _ => true)
      (fun _ v => if v = "A" then " " else "x") ≠ []
    ∧ (log_pressed_store [GroupSpec.mk "G" true [VarSpec.mk "A" "text" true 1,
          VarSpec.mk "B" "text" true 1]] (fun _ => true)
        (fun _ v => if v = "A" then " " else "x") "ts" [["Timestamp"]] = [["Timestamp"]]
      ∧ log_pressed_message [GroupSpec.mk "G" true [VarSpec.mk "A" "text" true 1,
          VarSpec.mk "B" "text" true 1]] (fun _ => true)
        (fun _ v => if v = "A" then " " else "x")
        = some (validationError (missingFields [GroupSpec.mk "G" true
            [VarSpec.mk "A" "text" true 1, VarSpec.mk "B" "text" true 1]]
          (fun _ => true) (fun _ v => if v = "A" then " " else "x")))) :=
  ⟨by decide,
    (validation_spec [GroupSpec.mk "G" true [VarSpec.mk "A" "text" true 1,
        VarSpec.mk "B" "text" true 1]] (fun _ => true)
      (fun _ v => if v = "A" then " " else "x") "ts" [["Timestamp"]]).2.2 (by decide)⟩

/-! ## C7: counter advance on successful submission -/

theorem advanceVar_ne (gname : String) (cs : String → String → Option Int)
    (v : VarSpec) (gn vn : String) (h : gn ≠ gname ∨ vn ≠ v.name) :
    advanceVar gname cs v gn vn = cs gn vn := by
  rw [advanceVar]
  by_cases ha : v.vtype = "auto_increment"
  · rw [if_pos ha, updateKey]
    have : ¬ (gn = gname ∧ vn = v.name) := by tauto
    rw [if_neg this]
  · rw [if_neg ha]

theorem foldl_advanceVar_ne_group (gname gn vn : String) (h : gn ≠ gname) :
    ∀ (vs : List VarSpec) (cs : String → String → Option Int),
      vs.foldl (advanceVar gname) cs gn vn = cs gn vn := by
  intro vs
  induction vs with
  | nil => intro cs; rfl
  | cons w ws ih =>
    intro cs
    rw [List.foldl_cons, ih, advanceVar_ne _ _ _ _ _ (Or.inl h)]

theorem foldl_advanceVar_not_mem (gname vn : String) :
    ∀ (vs : List VarSpec) (cs : String → String → Option Int) (gn : String),
      vn ∉ vs.map VarSpec.name →
      vs.foldl (advanceVar gname) cs gn vn = cs gn vn := by
  intro vs
  induction vs with
  | nil => intro cs gn _; rfl
  | cons w ws ih =>
    intro cs gn hnm
    simp only [List.map_cons, List.mem_cons, not_or] at hnm
    rw [List.foldl_cons, ih _ _ hnm.2, advanceVar_ne _ _ _ _ _ (Or.inr hnm.1)]

theorem foldl_advanceVar_auto (gname : String) :
    ∀ (vs : List VarSpec) (cs : String → String → Option Int) (v : VarSpec),
      (vs.map VarSpec.name).Nodup → v ∈ vs → v.vtype = "auto_increment" →
      vs.foldl (advanceVar gname) cs gname v.name
        = some ((cs gname v.name).getD v.start + 1) := by
  intro vs
  induction vs with
  | nil => intro cs v _ hv _; exact absurd hv (List.not_mem_nil v)
  | cons w ws ih =>
    intro cs v hnd hv hauto
    rw [List.map_cons, List.nodup_cons] at hnd
    rw [List.foldl_cons]
    rcases List.mem_cons.1 hv with rfl | hv'
    · rw [foldl_advanceVar_not_mem _ _ _ _ _ hnd.1, advanceVar, if_pos hauto,
        updateKey, if_pos ⟨rfl, rfl⟩]
    · have hneq : v.name ≠ w.name := by
        intro he
        exact hnd.1 (he ▸ List.mem_map_of_mem VarSpec.name hv')
      rw [ih _ _ hnd.2 hv' hauto, advanceVar_ne _ _ _ _ _ (Or.inr hneq)]

theorem foldl_advanceGroup_not_mem (gn vn : String) :
    ∀ (gs : List GroupSpec) (cs : String → String → Option Int),
      gn ∉ gs.map GroupSpec.name →
      gs.foldl advanceGroup cs gn vn = cs gn vn := by
  intro gs
  induction gs with
  | nil => intro cs _; rfl
  | cons h hs ih =>
    intro cs hnm
    simp only [List.map_cons, List.mem_cons, not_or] at hnm
    rw [List.foldl_cons, ih _ hnm.2, advanceGroup,
      foldl_advanceVar_ne_group _ _ _ hnm.1]

theorem foldl_advanceGroup_auto :
    ∀ (gs : List GroupSpec) (cs : String → String → Option Int)
      (g : GroupSpec) (v : VarSpec),
      (gs.map GroupSpec.name).Nodup → g ∈ gs → (g.vars.map VarSpec.name).Nodup →
      v ∈ g.vars → v.vtype = "auto_increment" →
      gs.foldl advanceGroup cs g.name v.name
        = some ((cs g.name v.name).getD v.start + 1) := by
  intro gs
  induction gs with
  | nil => intro cs g v _ hg _ _ _; exact absurd hg (List.not_mem_nil g)
  | cons h hs ih =>
    intro cs g v hnd hg hvnd hv hauto
    rw [List.map_cons, List.nodup_cons] at hnd
    rw [List.foldl_cons]
    rcases List.mem_cons.1 hg with rfl | hg'
    · rw [foldl_advanceGroup_not_mem _ _ _ _ hnd.1, advanceGroup,
        foldl_advanceVar_auto _ _ _ _ hvnd hv hauto]
    · have hneq : g.name ≠ h.name := by
        intro he
        exact hnd.1 (he ▸ List.mem_map_of_mem GroupSpec.name hg')
      rw [ih _ _ _ hnd.2 hg' hvnd hv hauto, advanceGroup,
        foldl_advanceVar_ne_group _ _ _ hneq]

/-- C7 counterexample: the success-path loop runs over active groups
    only, so with an always-on group `"H"` keeping the form submittable
    and group `"G"` toggled off, the auto-increment variable `"V"` of
    `"G"` keeps its counter across a successful submission: with local
    counter 5 it stays 5 instead of advancing to 6, refuting the claim
    quantified over every auto-increment field. -/
theorem counter_advance_counterexample :
    missingFields [GroupSpec.mk "H" true [], GroupSpec.mk "G" false
        [VarSpec.mk "V" "auto_increment" false 1]] (fun _ => false) (fun _ _ => "") = []
    ∧ log_pressed_counters
        [GroupSpec.mk "H" true [], GroupSpec.mk "G" false
          [VarSpec.mk "V" "auto_increment" false 1]]
        (fun _ => false) (fun _ _ => "") (fun _ _ => some 5) "G" "V" = some 5
    ∧ some (5 : Int) ≠ some ((5 : Int) + 1) := by
  refine ⟨rfl, ?_, by decide⟩
  rw [log_pressed_counters, if_neg (by decide)]
  rfl

/-- C7 amended: after a successful submission every auto-increment
    variable of an active group advances its counter by exactly one from
    its prior local session value (the local counter is authoritative —
    the advance reads only the session state, never the sheet), while
    counters keyed to groups outside the active set are untouched. -/
theorem counter_advance (groups : List GroupSpec) (active : String → Bool)
    (values : String → String → String)
    (counters : String → String → Option Int) (g : GroupSpec) (v : VarSpec) (n : Int)
    (hsucc : missingFields groups active values = [])
    (hnd : ((activeGroups groups active).map GroupSpec.name).Nodup)
    (hg : g ∈ activeGroups groups active)
    (hvnd : (g.vars.map VarSpec.name).Nodup)
    (hv : v ∈ g.vars) (hauto : v.vtype = "auto_increment")
    (hcur : counters g.name v.name = some n) :
    log_pressed_counters groups active values counters g.name v.name = some (n + 1)
    ∧ ∀ gn vn, gn ∉ (activeGroups groups active).map GroupSpec.name →
        log_pressed_counters groups active values counters gn vn = counters gn vn := by
  constructor
  · rw [log_pressed_counters, if_neg (by simp [hsucc]), advanceCounters,
      foldl_advanceGroup_auto _ _ _ _ hnd hg hvnd hv hauto, hcur]
    rfl
  · intro gn vn hnm
    rw [log_pressed_counters, if_neg (by simp [hsucc]), advanceCounters,
      foldl_advanceGroup_not_mem _ _ _ _ hnm]

/-- Witness for C7 (amended) at one active auto-increment variable with
    local counter 5: it advances to 6. -/
theorem counter_advance_witness :
    missingFields [GroupSpec.mk "G" true [VarSpec.mk "V" "auto_increment" false 1]]
        (fun _ => true) (fun _ _ => "") = []
    ∧ log_pressed_counters
        [GroupSpec.mk "G" true [VarSpec.mk "V" "auto_increment" false 1]]
        (fun _ => true) (fun _ _ => "") (fun _ _ => some 5) "G" "V"
      = some ((5 : Int) + 1) :=
  ⟨by decide,
    (counter_advance [GroupSpec.mk "G" true [VarSpec.mk "V" "auto_increment" false 1]]
      (fun _ => true) (fun _ _ => "") (fun _ _ => some 5)
      (GroupSpec.mk "G" true [VarSpec.mk "V" "auto_increment" false 1])
      (VarSpec.mk "V" "auto_increment" false 1) 5
      (by decide) (by decide) (by decide) (by decide) (by decide) rfl rfl).1⟩

/-! ## C4: colour aggregate per bin -/

theorem strLt_cons_iff (x y : Char) (xs ys : List Char) :
    strLt (x :: xs) (y :: ys) = true ↔ x < y ∨ (x = y ∧ strLt xs ys = true) := by
  rw [strLt]
  by_cases h1 : x < y
  · simp [h1]
  · by_cases h2 : y < x
    · simp only [if_neg h1, if_pos h2]
      constructor
      · intro h; exact absurd h (by simp)
      · rintro (h | ⟨rfl, _⟩)
        · exact absurd h h1
        · exact absurd h2 (lt_irrefl x)
    · have hxy : x = y := le_antisymm (le_of_not_lt h2) (le_of_not_lt h1)
      simp [h1, h2, hxy]

theorem strLt_irrefl : ∀ a : List Char, strLt a a = false := by
  intro a
  induction a with
  | nil => rfl
  | cons c cs ih =>
    rw [strLt, if_neg (lt_irrefl c), if_neg (lt_irrefl c)]
    exact ih

theorem strLt_trans :
    ∀ a b c : List Char, strLt a b = true → strLt b c = true → strLt a c = true := by
  intro a
  induction a with
  | nil =>
    intro b c hab hbc
    cases c with
    | nil =>
      cases b with
      | nil => exact hab
      | cons y ys => exact absurd hbc (by rw [strLt]; simp)
    | cons z zs => rfl
  | cons x xs ih =>
    intro b c hab hbc
    cases b with
    | nil => exact absurd hab (by rw [strLt]; simp)
    | cons y ys =>
      cases c with
      | nil => exact absurd hbc (by rw [strLt]; simp)
      | cons z zs =>
        rw [strLt_cons_iff] at hab hbc ⊢
        rcases hab with hxy | ⟨rfl, hab'⟩
        · rcases hbc with hyz | ⟨rfl, _⟩
          · exact Or.inl (lt_trans hxy hyz)
          · exact Or.inl hxy
        · rcases hbc with hyz | ⟨rfl, hbc'⟩
          · exact Or.inl hyz
          · exact Or.inr ⟨rfl, ih _ _ hab' hbc'⟩

theorem strLt_connex :
    ∀ a b : List Char, strLt a b = false → strLt b a = false → a = b := by
  intro a
  induction a with
  | nil =>
    intro b hab _
    cases b with
    | nil => rfl
    | cons y ys => exact absurd hab (by rw [strLt]; simp)
  | cons x xs ih =>
    intro b hab hba
    cases b with
    | nil => exact absurd hba (by rw [strLt]; simp)
    | cons y ys =>
      rw [← Bool.not_eq_true, strLt_cons_iff, not_or, not_and] at hab hba
      have hxy : x = y :=
        le_antisymm (le_of_not_lt hba.1) (le_of_not_lt hab.1)
      subst hxy
      rw [ih ys (by simpa using hab.2 rfl) (by simpa using hba.2 rfl)]

theorem minMode_spec :
    ∀ (ms : List String) (m : String),
      minMode m ms ∈ m :: ms
      ∧ ∀ y ∈ m :: ms, strLt y.data (minMode m ms).data = false := by
  intro ms
  induction ms with
  | nil =>
    intro m
    refine ⟨List.mem_singleton.2 rfl, ?_⟩
    intro y hy
    rw [List.mem_singleton] at hy
    subst hy
    exact strLt_irrefl _
  | cons v vs ih =>
    intro m
    have hfold : minMode m (v :: vs)
        = minMode (if strLt v.data m.data then v else m) vs := by
      rw [minMode, minMode, List.foldl_cons]
    obtain ⟨hmem, hub⟩ := ih (if strLt v.data m.data then v else m)
    constructor
    · rw [hfold]
      rcases List.mem_cons.1 hmem with h | h
      · rw [h]
        by_cases hvm : strLt v.data m.data
        · rw [if_pos hvm]
          exact List.mem_cons_of_mem _ (List.mem_cons_self _ _)
        · rw [if_neg hvm]
          exact List.mem_cons_self _ _
      · exact List.mem_cons_of_mem _ (List.mem_cons_of_mem _ h)
    · intro y hy
      rw [hfold]
      have hubv : ∀ z ∈ vs, strLt z.data (minMode (if strLt v.data m.data then v else m) vs).data = false :=
        fun z hz => hub z (List.mem_cons_of_mem _ hz)
      have hubhead : strLt (if strLt v.data m.data then v else m).data
          (minMode (if strLt v.data m.data then v else m) vs).data = false :=
        hub _ (List.mem_cons_self _ _)
      rcases List.mem_cons.1 hy with hym | hy'
      · subst hym
        by_cases hvm : strLt v.data y.data = true
        · rw [if_pos hvm] at hubhead ⊢
          by_contra hcon
          rw [Bool.not_eq_false] at hcon
          exact absurd (strLt_trans _ _ _ hvm hcon) (by rw [hubhead]; simp)
        · rw [if_neg hvm] at hubhead ⊢
          exact hubhead
      · rcases List.mem_cons.1 hy' with hyv | hy''
        · subst hyv
          by_cases hvm : strLt y.data m.data = true
          · rw [if_pos hvm] at hubhead ⊢
            exact hubhead
          · rw [if_neg hvm] at hubhead ⊢
            rw [Bool.not_eq_true] at hvm
            by_contra hcon
            rw [Bool.not_eq_false] at hcon
            by_cases hmv : strLt m.data y.data = true
            · exact absurd (strLt_trans _ _ _ hmv hcon) (by rw [hubhead]; simp)
            · rw [Bool.not_eq_true] at hmv
              have hdata := strLt_connex _ _ hvm hmv
              rw [← hdata] at hubhead
              exact absurd hcon (by rw [hubhead]; simp)
        · exact hubv y hy''

theorem nat_max?_spec (l : List Nat) (hl : l ≠ []) :
    ∃ m, l.max? = some m ∧ m ∈ l ∧ ∀ b ∈ l, b ≤ m := by
  cases hmax : l.max? with
  | none => rw [List.max?_eq_none_iff] at hmax; exact absurd hmax hl
  | some m =>
    have : Std.Antisymm (α := Nat) (· ≤ ·) := ⟨fun h1 h2 => Nat.le_antisymm h1 h2⟩
    rw [List.max?_eq_some_iff] at hmax
    · exact ⟨m, rfl, hmax⟩
    all_goals simp [Nat.le_total, Nat.max_le]

theorem maxFreq_is_ub (vals : List String) (v : String) (hv : v ∈ vals) :
    vals.count v ≤ maxFreq vals := by
  have hne : vals ≠ [] := by rintro rfl; exact List.not_mem_nil _ hv
  have hmapne : (vals.map fun w => vals.count w) ≠ [] := by
    simpa using hne
  obtain ⟨m, hm, _, hub⟩ := nat_max?_spec _ hmapne
  rw [maxFreq, hm, Option.getD_some]
  exact hub _ (List.mem_map_of_mem _ hv)

theorem mem_modes_iff (vals : List String) (w : String) :
    w ∈ modes vals ↔ w ∈ vals ∧ vals.count w = maxFreq vals := by
  rw [modes, List.mem_filter, List.mem_dedup]
  simp

theorem modes_ne_nil (vals : List String) (hne : vals ≠ []) : modes vals ≠ [] := by
  have hmapne : (vals.map fun w => vals.count w) ≠ [] := by simpa using hne
  obtain ⟨m, hm, hmem, _⟩ := nat_max?_spec _ hmapne
  rw [List.mem_map] at hmem
  obtain ⟨v, hv, hcv⟩ := hmem
  have : v ∈ modes vals := by
    rw [mem_modes_iff]
    exact ⟨hv, by rw [maxFreq, hm, Option.getD_some, hcv]⟩
  intro hnil
  rw [hnil] at this
  exact List.not_mem_nil _ this

theorem pandasModeFirst_spec (vals : List String) (hne : vals ≠ []) :
    pandasModeFirst vals ∈ vals
    ∧ (∀ w ∈ vals, vals.count w ≤ vals.count (pandasModeFirst vals))
    ∧ (∀ w ∈ vals, vals.count w = vals.count (pandasModeFirst vals) →
        strLt w.data (pandasModeFirst vals).data = false) := by
  have hunfold : pandasModeFirst vals
      = match modes vals with
        | [] => ""
        | m :: ms => minMode m ms := by
    rw [pandasModeFirst, if_neg hne]
  cases hmodes : modes vals with
  | nil => exact absurd hmodes (modes_ne_nil vals hne)
  | cons m ms =>
    have heq : pandasModeFirst vals = minMode m ms := by rw [hunfold, hmodes]
    obtain ⟨hmem, hub⟩ := minMode_spec ms m
    have hin : pandasModeFirst vals ∈ modes vals := by
      rw [heq, hmodes]
      exact hmem
    rw [mem_modes_iff] at hin
    refine ⟨hin.1, ?_, ?_⟩
    · intro w hw
      rw [hin.2]
      exact maxFreq_is_ub vals w hw
    · intro w hw hcount
      have hwmodes : w ∈ modes vals := by
        rw [mem_modes_iff]
        exact ⟨hw, by rw [hcount, hin.2]⟩
      rw [heq]
      apply hub
      rw [← hmodes]
      exact hwmodes

/-- C4 counterexample: the claim's tie-break "first value encountered"
    fails: for bin values `["b", "a"]` (both frequency 1, `"b"` first)
    the aggregate `x.mode().iloc[0]` is the sorted-first mode `"a"`,
    not `"b"`. -/
theorem colour_mode_counterexample :
    pandasModeFirst ["b", "a"] = "a" ∧ ("a" : String) ≠ "b" :=
  ⟨by decide, by decide⟩

/-- C4 amended: per bin the colour aggregate is the arithmetic mean for
    a numeric column and the most frequent value for a categorical one,
    with ties between equally frequent values broken deterministically
    by taking the least value in string (code-point) order — pandas
    `mode()` returns modes sorted — not the first encountered; for
    member values `["red", "red", "blue"]` the aggregate is `"red"`. -/
theorem colour_aggregate (vals : List String) (nums : List ℚ)
    (hvals : vals ≠ []) (hnums : nums ≠ []) :
    colourMean nums * nums.length = nums.sum
    ∧ pandasModeFirst vals ∈ vals
    ∧ (∀ w ∈ vals, vals.count w ≤ vals.count (pandasModeFirst vals))
    ∧ (∀ w ∈ vals, vals.count w = vals.count (pandasModeFirst vals) →
        strLt w.data (pandasModeFirst vals).data = false)
    ∧ pandasModeFirst ["red", "red", "blue"] = "red" := by
  obtain ⟨h1, h2, h3⟩ := pandasModeFirst_spec vals hvals
  refine ⟨?_, h1, h2, h3, by decide⟩
  rw [colourMean, div_mul_cancel₀]
  have : nums.length ≠ 0 := by
    intro h
    exact hnums (List.length_eq_zero.1 h)
  exact_mod_cast this

/-- Witness for C4 (amended) at the spec's example values and a
    singleton numeric column. -/
theorem colour_aggregate_witness :
    ((["red", "red", "blue"] : List String) ≠ [] ∧ ([1] : List ℚ) ≠ [])
    ∧ pandasModeFirst ["red", "red", "blue"] ∈ ["red", "red", "blue"] :=
  ⟨⟨by decide, by simp⟩,
    (colour_aggregate ["red", "red", "blue"] [1] (by decide) (by simp)).2.1⟩

/-! ## C5: bubble-size normalisation -/

/-- C5 counterexample: with equal counts and `size_scale = 50` the code
    assigns `50 * 0.5 = 25`, not the midpoint `(8 + 50) / 2 = 29` of the
    size range `[8, 50]` claimed by the spec. -/
theorem bubble_size_counterexample :
    bubbleSize [2, 2] 50 2 = 25 ∧ (25 : ℚ) ≠ (8 + 50) / 2 := by
  constructor
  · rw [bubbleSize]
    simp only [List.min?, List.max?, List.foldl_cons, List.foldl_nil, min_self, max_self,
      Option.getD_some, lt_irrefl, if_false]
    norm_num
  · norm_num

/-- C5 amended: when all counts coincide every bin gets half the
    configured upper bound (`size_scale * 0.5`, not the midpoint of
    `[8, size_scale]`); when counts vary, the minimum count maps to 8,
    the maximum to `size_scale`, linearly in between, so the size is
    monotone non-decreasing in the count (for `8 ≤ size_scale`; the
    slider enforces `20 ≤ size_scale`). -/
theorem bubble_size_spec (counts : List ℚ) (s c1 c2 : ℚ) (mn mx : ℚ)
    (hmn : counts.min? = some mn) (hmx : counts.max? = some mx) :
    (¬ mn < mx → ∀ c, bubbleSize counts s c = s * (1 / 2))
    ∧ (mn < mx → bubbleSize counts s mn = 8 ∧ bubbleSize counts s mx = s)
    ∧ (mn < mx → 8 ≤ s → c1 ≤ c2 →
        bubbleSize counts s c1 ≤ bubbleSize counts s c2) := by
  have hgmn : (counts.min?).getD 0 = mn := by rw [hmn]; rfl
  have hgmx : (counts.max?).getD 0 = mx := by rw [hmx]; rfl
  refine ⟨?_, ?_, ?_⟩
  · intro h c
    rw [bubbleSize]
    simp only [hgmn, hgmx, if_neg h]
  · intro h
    have hd : mx - mn ≠ 0 := sub_ne_zero.2 (ne_of_gt h)
    constructor
    · rw [bubbleSize]
      simp only [hgmn, hgmx, if_pos h, sub_self, mul_zero, zero_div, add_zero]
    · rw [bubbleSize]
      simp only [hgmn, hgmx, if_pos h]
      field_simp
  · intro h hs hc
    have hd : 0 < mx - mn := sub_pos.2 h
    rw [bubbleSize, bubbleSize]
    simp only [hgmn, hgmx, if_pos h]
    apply add_le_add_left
    have hnum : (s - 8) * (c1 - mn) ≤ (s - 8) * (c2 - mn) :=
      mul_le_mul_of_nonneg_left (sub_le_sub_right hc mn) (sub_nonneg.2 hs)
    exact (div_le_div_iff_of_pos_right hd).2 hnum

/-! ## C6: bin counts partition the (keyed) records -/

theorem count_beq_lawful {α : Type} [BEq α] [LawfulBEq α] [DecidableEq α]
    (a : α) (l : List α) :
    l.count a = @List.count α instBEqOfDecidableEq a l := by
  induction l with
  | nil => rfl
  | cons b bs ih =>
    simp only [List.count_cons, ih]
    by_cases h : b = a <;> simp [h]

theorem length_filterMap_eq_length_filter {α β : Type} (f : α → Option β) (l : List α) :
    (l.filterMap f).length = (l.filter fun a => (f a).isSome).length := by
  induction l with
  | nil => rfl
  | cons a as ih =>
    rw [List.filterMap_cons, List.filter_cons]
    cases hf : f a with
    | none => simp [hf, ih]
    | some b => simp [hf, ih]

/-- C6 amended: the bins partition the records that carry a grouping
    key, so the per-bin counts sum to the number of filtered records
    whose X and Y cells are both present; when every record has both
    cells (no NaN), this is the number of filtered records.  (pandas
    `groupby` silently drops rows whose key is NaN, so the claim's
    unconditional equality with the filtered record count fails.) -/
theorem bin_partition (dx dy : Nat) (recs : List PlotRec) :
    ((bins dx dy recs).map fun k => binCount dx dy recs k).sum
      = (recs.filter fun r => (binKey dx dy r).isSome).length
    ∧ ((∀ r ∈ recs, (binKey dx dy r).isSome) →
        ((bins dx dy recs).map fun k => binCount dx dy recs k).sum = recs.length) := by
  have h1 : ((bins dx dy recs).map fun k => binCount dx dy recs k).sum
      = (recs.filter fun r => (binKey dx dy r).isSome).length := by
    show (((binKeys dx dy recs).dedup).map fun k => (binKeys dx dy recs).count k).sum
      = (recs.filter fun r => (binKey dx dy r).isSome).length
    have hcount : (fun k => (binKeys dx dy recs).count k)
        = fun k => @List.count _ instBEqOfDecidableEq k (binKeys dx dy recs) := by
      funext k
      exact count_beq_lawful k _
    rw [hcount, List.sum_map_count_dedup_eq_length, binKeys,
      length_filterMap_eq_length_filter]
  refine ⟨h1, ?_⟩
  intro hall
  rw [h1, List.filter_eq_self.2 hall]

/-- C6 counterexample: a filtered table of two records where one has a
    missing (NaN) X cell: the bin counts sum to 1, not to the number of
    filtered records 2 — the NaN-keyed record is dropped by `groupby`. -/
theorem bin_partition_counterexample :
    ((bins 1 1 [PlotRec.mk (some 1) (some 1), PlotRec.mk none (some 1)]).map
        fun k => binCount 1 1 [PlotRec.mk (some 1) (some 1), PlotRec.mk none (some 1)] k).sum
      = 1
    ∧ ([PlotRec.mk (some 1) (some 1), PlotRec.mk none (some 1)] : List PlotRec).length = 2
    ∧ (1 : Nat) ≠ 2 := by
  refine ⟨?_, rfl, by decide⟩
  have hkeys : binKeys 1 1 [PlotRec.mk (some 1) (some 1), PlotRec.mk none (some 1)]
      = [(roundTo 1 1, roundTo 1 1)] := rfl
  show (((binKeys 1 1 [PlotRec.mk (some 1) (some 1), PlotRec.mk none (some 1)]).dedup).map
      fun k => (binKeys 1 1 [PlotRec.mk (some 1) (some 1), PlotRec.mk none (some 1)]).count k).sum = 1
  rw [hkeys]
  rw [show ([(roundTo 1 1, roundTo 1 1)] : List (ℚ × ℚ)).dedup
      = [(roundTo 1 1, roundTo 1 1)] by
    rw [List.dedup_cons_of_not_mem] <;> simp]
  simp [List.count_cons]

/-- Witness for C5 (amended) at counts `[1, 3]`, `size_scale = 50`:
    the size is monotone from count 1 to count 2. -/
theorem bubble_size_spec_witness :
    ((1 : ℚ) < 3 ∧ (8 : ℚ) ≤ 50 ∧ (1 : ℚ) ≤ 2)
    ∧ bubbleSize [1, 3] 50 1 ≤ bubbleSize [1, 3] 50 2 :=
  ⟨⟨by norm_num, by norm_num, by norm_num⟩,
    (bubble_size_spec [1, 3] 50 1 2 1 3 (by norm_num [List.min?, min_def])
      (by norm_num [List.max?, max_def])).2.2 (by norm_num) (by norm_num) (by norm_num)⟩

/-- Witness for C6 (amended): with every record keyed, the counts sum to
    the record count. -/
theorem bin_partition_witness :
    (∀ r ∈ ([PlotRec.mk (some 1) (some 2)] : List PlotRec), (binKey 1 1 r).isSome)
    ∧ ((bins 1 1 [PlotRec.mk (some 1) (some 2)]).map
        fun k => binCount 1 1 [PlotRec.mk (some 1) (some 2)] k).sum
      = ([PlotRec.mk (some 1) (some 2)] : List PlotRec).length :=
  ⟨by decide, (bin_partition 1 1 [PlotRec.mk (some 1) (some 2)]).2 (by decide)⟩

/-! ## C8: `load_log` never raises -/

theorem colLength_coerceColumn (cells : List String) :
    colLength (coerceColumn cells) = cells.length := by
  rw [coerceColumn]
  by_cases h : 0 < (cells.map toNumericQ).countP Option.isSome
  · rw [if_pos h]
    simp [colLength]
  · rw [if_neg h]
    simp [colLength]

/-- C8: `load_log` is a total function of the connection outcome: a
    connection failure yields the empty table plus a non-fatal warning
    instead of an exception, and a successful fetch yields all rows of
    the remote store as a table — one column per header, each carrying
    one cell per data row — with no warning. -/
theorem load_log_spec (headers : List String) (rows : List (List String)) :
    load_log none = ([], true)
    ∧ load_log (some (headers, [])) = ([], false)
    ∧ (rows ≠ [] →
        (load_log (some (headers, rows))).2 = false
        ∧ ((load_log (some (headers, rows))).1).length = headers.length
        ∧ ∀ col ∈ (load_log (some (headers, rows))).1,
            colLength col.2 = rows.length) := by
  refine ⟨rfl, rfl, ?_⟩
  intro hne
  rw [load_log]
  rw [if_neg hne]
  refine ⟨rfl, ?_, ?_⟩
  · rw [loadTable, List.length_map, List.enum_length]
  · intro col hcol
    rw [loadTable, List.mem_map] at hcol
    obtain ⟨p, _, hp⟩ := hcol
    rw [← hp]
    rw [colLength_coerceColumn, List.length_map]

/-- Witness for C8 at a one-column, one-row sheet. -/
theorem load_log_spec_witness :
    (([["1"]] : List (List String)) ≠ [])
    ∧ ((load_log (some (["A"], [["1"]]))).2 = false
      ∧ ((load_log (some (["A"], [["1"]]))).1).length = (["A"] : List String).length
      ∧ ∀ col ∈ (load_log (some (["A"], [["1"]]))).1,
          colLength col.2 = ([["1"]] : List (List String)).length) :=
  ⟨by decide, (load_log_spec ["A"] [["1"]]).2.2 (by decide)⟩

/-! ## C10: load-time numeric coercion of columns -/

/-- C10: a column in which at least one cell parses as a number is
    replaced wholesale by its coerced values — every non-parsing cell
    becoming a missing value (NaN, modelled `none`) — while a column
    with no parseable cell is left unchanged. -/
theorem coerce_column_spec (cells : List String) :
    ((∃ c ∈ cells, (toNumericQ c).isSome) →
        coerceColumn cells = Sum.inl (cells.map toNumericQ))
    ∧ ((∀ c ∈ cells, toNumericQ c = none) → coerceColumn cells = Sum.inr cells) := by
  constructor
  · rintro ⟨c, hc, hsome⟩
    rw [coerceColumn, if_pos]
    rw [List.countP_pos_iff]
    exact ⟨toNumericQ c, List.mem_map_of_mem _ hc, hsome⟩
  · intro hall
    rw [coerceColumn, if_neg]
    simp only [not_lt, Nat.le_zero, List.countP_eq_zero]
    intro x hx
    rw [List.mem_map] at hx
    obtain ⟨c, hc, hx⟩ := hx
    rw [← hx, hall c hc]
    simp

/-- Witness for C10 at the column `["7", "x"]`: `"7"` parses, so the
    column is coerced, with `none` at the non-parsing cell. -/
theorem coerce_column_spec_witness :
    (∃ c ∈ (["7", "x"] : List String), (toNumericQ c).isSome)
    ∧ coerceColumn ["7", "x"] = Sum.inl (["7", "x"].map toNumericQ) :=
  ⟨⟨"7", by decide, by decide⟩,
    (coerce_column_spec ["7", "x"]).1 ⟨"7", by decide, by decide⟩⟩

end Bampr
